import Mathlib

/-!
Verification development for the LTI modeling and step-response validation
engine described in the repository specification.

The repository source (`src/validation/validation.py`) is a validation script:
it builds plant/controller models, composes them in series and under unity
feedback, simulates step responses over `linspace` time grids, and overlays the
result against externally recorded trajectories.  The script delegates the
model algebra and the numerical integration to an external control-systems
library, so the engine itself (LinearModel, SystemAlgebra,
StepResponseSimulator) is modelled here from the specification, while the
scenario functions and the script-level data flow are embedded directly from
the source.

Real coefficients are embedded as rational numbers, so every algebraic
identity claimed "up to floating-point tolerance" is established exactly.
Polynomial coefficient lists are ordered highest-to-lowest degree, as in the
specification data model.
-/

open Polynomial

/-- Interpretation of a highest-to-lowest coefficient list as a polynomial. -/
noncomputable def listToPoly : List ℚ → Polynomial ℚ
  | [] => 0
  | c :: cs => Polynomial.C c * Polynomial.X ^ cs.length + listToPoly cs

/-- Right-aligned addition of coefficient lists (pads the shorter with leading zeros). -/
def polyAdd (p q : List ℚ) : List ℚ :=
  List.zipWith (· + ·)
    (List.replicate (max p.length q.length - p.length) 0 ++ p)
    (List.replicate (max p.length q.length - q.length) 0 ++ q)

/-- Scalar multiple of a coefficient list. -/
def polySmul (c : ℚ) (p : List ℚ) : List ℚ := p.map (c * ·)

/-- Right-aligned subtraction of coefficient lists. -/
def polySub (p q : List ℚ) : List ℚ := polyAdd p (q.map (fun x => -x))

/-- Product of coefficient lists (polynomial multiplication). -/
def polyMul : List ℚ → List ℚ → List ℚ
  | [], _ => []
  | a :: as, q => polyAdd (q.map (a * ·) ++ List.replicate as.length 0) (polyMul as q)

/-- Transfer-function representation: numerator and denominator coefficient lists,
ordered highest-to-lowest degree, as in the specification data model. -/
structure TransferFunctionModel where
  num : List ℚ
  den : List ℚ
deriving DecidableEq

/-- State-space representation of a SISO system of order n:
xdot = A x + B u, y = C x + D u. -/
structure StateSpaceModel (n : ℕ) where
  A : Matrix (Fin n) (Fin n) ℚ
  B : Matrix (Fin n) (Fin 1) ℚ
  C : Matrix (Fin 1) (Fin n) ℚ
  D : ℚ

/-- Modelled from the spec: `LinearModel` — a tagged union over
StateSpaceModel and TransferFunctionModel (the engine itself is delegated to an
external control-systems library by the source and is absent from src/). -/
inductive LinearModel where
  | tfm : TransferFunctionModel → LinearModel
  | ssm : (n : ℕ) → StateSpaceModel n → LinearModel

/-- Well-formedness of a transfer-function model per the specification data-model
invariants: both coefficient lists non-empty and the denominator leading
coefficient non-zero. -/
def wellFormed (t : TransferFunctionModel) : Prop :=
  t.num ≠ [] ∧ t.den ≠ [] ∧ t.den.headI ≠ 0

instance (t : TransferFunctionModel) : Decidable (wellFormed t) := by
  unfold wellFormed; infer_instance

/-- Order of a transfer-function model: the degree of its denominator. -/
def TransferFunctionModel.order (t : TransferFunctionModel) : ℕ := t.den.length - 1

/-- Modelled from the spec: `toStateSpace()` — builds a controllable-canonical
realization of order degree(den) by closed-form construction from the
coefficients, after normalizing the denominator to be monic (the simulator
realizes arbitrary well-formed transfer functions, so the division by the
leading coefficient is made explicit here; it is the identity when the leading
coefficient is already 1). -/
def toStateSpace (m : TransferFunctionModel) : (n : ℕ) × StateSpaceModel n :=
  let lc := m.den.headI
  let n := m.den.length - 1
  let al := (m.den.tail.map (· / lc)).reverse
  let bl := (List.replicate (m.den.length - m.num.length) 0 ++ m.num.map (· / lc)).reverse
  let dq := bl.getD n 0
  ⟨n,
    { A := fun i j =>
        if (i : ℕ) + 1 = (j : ℕ) then 1
        else if (i : ℕ) = n - 1 then -(al.getD (j : ℕ) 0) else 0
      B := fun i _ => if (i : ℕ) = n - 1 then 1 else 0
      C := fun _ j => bl.getD (j : ℕ) 0 - dq * al.getD (j : ℕ) 0
      D := dq }⟩

/-- Companion (controllable-canonical) system matrix for the monic denominator
s^n + a(n−1)s^(n−1) + ... + a(0), with a the low-order coefficient vector. -/
def compA (n : ℕ) (a : Fin n → ℚ) : Matrix (Fin n) (Fin n) ℚ := fun i j =>
  if (i : ℕ) + 1 = (j : ℕ) then 1
  else if (i : ℕ) = n - 1 then -(a j) else 0

/-- The monic polynomial X^n + sum of a(j)·X^j encoded by a low-order
coefficient vector. -/
noncomputable def denP (n : ℕ) (a : Fin n → ℚ) : Polynomial ℚ :=
  Polynomial.X ^ n + ∑ j : Fin n, Polynomial.C (a j) * Polynomial.X ^ (j : ℕ)

/-- Modelled from the spec: `toTransferFunction()` on a state-space model —
denominator is the characteristic polynomial det(sI − A) and numerator is
C·adj(sI − A)·B + D·det(sI − A), the standard resolvent-based formula. -/
noncomputable def ssToTfPoly {n : ℕ} (s : StateSpaceModel n) : Polynomial ℚ × Polynomial ℚ :=
  let M := Matrix.charmatrix s.A
  (((s.C.map Polynomial.C) * M.adjugate * (s.B.map Polynomial.C)) 0 0
      + Polynomial.C s.D * M.det,
    M.det)

/-- Coefficient list (highest-to-lowest) of a polynomial. -/
noncomputable def polyCoeffList (p : Polynomial ℚ) : List ℚ :=
  ((List.range (p.natDegree + 1)).reverse).map p.coeff

/-- Transfer-function view of a LinearModel: a transfer-function model is
returned as is; a state-space model is converted by the resolvent formula. -/
noncomputable def LinearModel.toTF : LinearModel → TransferFunctionModel
  | .tfm t => t
  | .ssm _ s => ⟨polyCoeffList (ssToTfPoly s).1, polyCoeffList (ssToTfPoly s).2⟩

/-- Modelled from the spec: `series(g1, g2)` — cascade composition implemented at
the transfer-function level as polynomial multiplication of numerators and of
denominators, with no pole-zero cancellation. -/
noncomputable def series (g1 g2 : LinearModel) : LinearModel :=
  .tfm ⟨polyMul g1.toTF.num g2.toTF.num, polyMul g1.toTF.den g2.toTF.den⟩

/-- Error taxonomy of model construction (spec section 7): the degenerate
feedback reduction is rejected with InvalidModelError. -/
inductive ModelError where
  | invalidModelError : ModelError
deriving DecidableEq

/-- Modelled from the spec: `unityFeedback(openLoop, sign = −1)` — the closed
loop openLoop / (1 − sign·openLoop), i.e. num/(den − sign·num) in
transfer-function form; fails with InvalidModelError if the reduction yields
the zero polynomial (the denominator list is identically zero). -/
noncomputable def unityFeedback (g : LinearModel) (sign : ℚ) :
    Except ModelError LinearModel :=
  let den2 := polySub g.toTF.den (polySmul sign g.toTF.num)
  if ∀ c ∈ den2, c = 0 then .error .invalidModelError
  else .ok (.tfm ⟨g.toTF.num, den2⟩)

/-- Trajectory: an ordered sequence of (time, value) samples. -/
structure Traj where
  samples : List (ℚ × ℚ)
deriving DecidableEq

/-- Error taxonomy of the simulator (the two simulation-time errors of the
specification). -/
inductive SimError where
  | emptyGridError : SimError
  | integrationDivergedError : ℚ → SimError
deriving DecidableEq

/-- Dot product of coefficient/state lists. -/
def dotL (r v : List ℚ) : ℚ := (List.zipWith (· * ·) r v).sum

/-- Componentwise sum of state vectors. -/
def vecAdd (v w : List ℚ) : List ℚ := List.zipWith (· + ·) v w

/-- Scalar multiple of a state vector. -/
def vecSmul (c : ℚ) (v : List ℚ) : List ℚ := v.map (c * ·)

/-- Matrix–vector product in row-list form. -/
def matVecL (m : List (List ℚ)) (v : List ℚ) : List ℚ := m.map (fun row => dotL row v)

/-- Modelled from the spec: one explicit 4th-order Runge–Kutta step for
xdot = A x + B u with unit step input u = 1. -/
def rk4Step (a : List (List ℚ)) (b : List ℚ) (h : ℚ) (x : List ℚ) : List ℚ :=
  let f := fun z => vecAdd (matVecL a z) b
  let k1 := f x
  let k2 := f (vecAdd x (vecSmul (h / 2) k1))
  let k3 := f (vecAdd x (vecSmul (h / 2) k2))
  let k4 := f (vecAdd x (vecSmul h k3))
  vecAdd x (vecSmul (h / 6) (vecAdd k1 (vecAdd (vecSmul 2 k2) (vecAdd (vecSmul 2 k3) k4))))

/-- Check that every state component is within the configured magnitude bound. -/
def stateInBound (bound : ℚ) (x : List ℚ) : Bool :=
  x.all fun c => decide (-bound ≤ c ∧ c ≤ bound)

/-- Advance the state by a given number of RK4 substeps of size h, failing with
the time at which the state magnitude bound was first exceeded. -/
def advance (a : List (List ℚ)) (b : List ℚ) (bound h : ℚ) :
    ℕ → ℚ → List ℚ → Except ℚ (List ℚ)
  | 0, _, x => .ok x
  | k + 1, t, x =>
    let x1 := rk4Step a b h x
    if stateInBound bound x1 then advance a b bound h k (t + h) x1
    else .error (t + h)

/-- Modelled from the spec: the integration loop of `simulate` — for each
requested time, advance the state across the interval with k RK4 substeps and
record the sample (time, y) with y = C x + D·1, failing with
IntegrationDivergedError when the state or the output exceeds the bound. -/
def simSamples (a : List (List ℚ)) (b c : List ℚ) (d bound : ℚ) (k : ℕ) :
    ℚ → List ℚ → List ℚ → Except SimError (List (ℚ × ℚ))
  | _, _, [] => .ok []
  | t, x, tj :: rest =>
    match advance a b bound ((tj - t) / (k : ℚ)) k t x with
    | .error td => .error (.integrationDivergedError td)
    | .ok x1 =>
      let yj := dotL c x1 + d
      if -bound ≤ yj ∧ yj ≤ bound then
        match simSamples a b c d bound k tj x1 rest with
        | .error e => .error e
        | .ok tail => .ok ((tj, yj) :: tail)
      else .error (.integrationDivergedError tj)

/-- Row-list form of a matrix. -/
def matToLists {n m : ℕ} (M : Matrix (Fin n) (Fin m) ℚ) : List (List ℚ) :=
  List.ofFn fun i => List.ofFn fun j => M i j

/-- List form of a column matrix. -/
def colToList {n : ℕ} (M : Matrix (Fin n) (Fin 1) ℚ) : List ℚ :=
  List.ofFn fun i => M i 0

/-- List form of a row matrix. -/
def rowToList {n : ℕ} (M : Matrix (Fin 1) (Fin n) ℚ) : List ℚ :=
  List.ofFn fun j => M 0 j

/-- State-space realization of a LinearModel: a state-space model is used as is;
a transfer-function model is realized in controllable-canonical form. -/
def LinearModel.realize : LinearModel → (n : ℕ) × StateSpaceModel n
  | .ssm n s => ⟨n, s⟩
  | .tfm t => toStateSpace t

/-- State dimension of the realization of a LinearModel. -/
def LinearModel.stateDim (m : LinearModel) : ℕ := m.realize.1

/-- Modelled from the spec: `simulate` generalized with an explicit initial
state, integrating from t = 0 with k RK4 substeps per grid interval under the
configurable magnitude bound. -/
def simulateFrom (x0 : List ℚ) (m : LinearModel) (grid : List ℚ) (k : ℕ) (bound : ℚ) :
    Except SimError Traj :=
  if grid.length < 2 then .error .emptyGridError
  else
    let s := m.realize.2
    Except.map Traj.mk
      (simSamples (matToLists s.A) (colToList s.B) (rowToList s.C) s.D bound k 0 x0 grid)

/-- Modelled from the spec: `simulate(model, timeGrid)` — a pure computation
that realizes the model in state-space form and integrates its unit-step
response from a fresh zero initial condition at t = 0. -/
def simulate (m : LinearModel) (grid : List ℚ) (k : ℕ) (bound : ℚ) : Except SimError Traj :=
  simulateFrom (List.replicate m.stateDim 0) m grid k bound

/-- Embedding of numpy linspace(a, b, n): n evenly spaced points from a to b. -/
def linspace (a b : ℚ) (n : ℕ) : List ℚ :=
  (List.range n).map fun i : ℕ => a + (b - a) * (i : ℚ) / ((n : ℚ) - 1)

/-- Magnitude bound used by the scenario simulations. -/
def defaultBound : ℚ := 1000000000

/-- Third-order plant of `third_order_system` (source lines 10-14). -/
def thirdOrderPlant : LinearModel :=
  .ssm 3 ⟨!![0, 1, 0; 0, 0, 1; -6, -11, -6], !![0; 0; 1], !![1, 0, 0], 0⟩

/-- PID controller of `third_order_system`: Kp = 25, Ki = 0, Kd = 0
(source lines 16-23). -/
def pid3 : LinearModel := .tfm ⟨[0, 25, 0], [1, 0]⟩

/-- Closed-loop system of `third_order_system` (source lines 25-29); the
feedback reduction is non-degenerate for this plant, so the error branch is
never taken. -/
noncomputable def thirdOrderClosed : LinearModel :=
  match unityFeedback (series pid3 thirdOrderPlant) (-1) with
  | .ok m => m
  | .error _ => .tfm ⟨[], []⟩

/-- Embedding of `third_order_system(time)` (source lines 8-32). -/
noncomputable def third_order_system (time : List ℚ) : Except SimError Traj :=
  simulate thirdOrderClosed (linspace 0 (time.getLastD 0) time.length) 1 defaultBound

/-- RL-circuit plant in state-space form used by `rl_circuit_open`
(source lines 37-41). -/
def rlPlantSS : LinearModel := .ssm 1 ⟨!![-100], !![1], !![20], 0⟩

/-- Embedding of `rl_circuit_open(time)` (source lines 35-45). -/
def rl_circuit_open (time : List ℚ) : Except SimError Traj :=
  simulate rlPlantSS (linspace 0 (time.getLastD 0) time.length) 1 defaultBound

/-- RL-circuit plant in transfer-function form used by `rl_circuit_closed`
(source line 50): P(s) = 1/(0.05 s + 5). -/
def rlPlantTf : LinearModel := .tfm ⟨[1], [1/20, 5]⟩

/-- PID controller of `rl_circuit_closed`: Kp = 1, Ki = 0, Kd = 0
(source lines 52-59). -/
def pidRL : LinearModel := .tfm ⟨[0, 1, 0], [1, 0]⟩

/-- Closed-loop system of `rl_circuit_closed` (source lines 61-65); the
feedback reduction is non-degenerate for this plant (denominator
0.05 s^2 + 6 s), so the error branch is never taken. -/
noncomputable def rlClosed : LinearModel :=
  match unityFeedback (series pidRL rlPlantTf) (-1) with
  | .ok m => m
  | .error _ => .tfm ⟨[], []⟩

/-- Embedding of `rl_circuit_closed(time)` (source lines 48-68). -/
noncomputable def rl_circuit_closed (time : List ℚ) : Except SimError Traj :=
  simulate rlClosed (linspace 0 (time.getLastD 0) time.length) 1 defaultBound

/-- Embedding of the script-level reference computations (source lines 96-122):
the three recorded time columns are loaded and the three reference step
responses are computed from them.  The source passes `time_rl_open` — not
`time_rl_closed` — to `rl_circuit_closed`, and this embedding mirrors that. -/
noncomputable def scriptRefs (time3 timeOpen timeClosed : List ℚ) :
    Except SimError Traj × Except SimError Traj × Except SimError Traj :=
  (third_order_system time3, rl_circuit_open timeOpen, rl_circuit_closed timeOpen)

/-- Unit-spaced time grid 0, 1, ..., 22, long enough for the unstable
right-half-plane example 1/(s - 1) to exceed the scenario magnitude bound. -/
def rhpGrid : List ℚ := (List.range 23).map fun i => (i : ℚ)

instance {e a : Type} [DecidableEq e] [DecidableEq a] : DecidableEq (Except e a) := fun x y =>
  match x, y with
  | .ok v, .ok w => decidable_of_iff (v = w) (by simp)
  | .error v, .error w => decidable_of_iff (v = w) (by simp)
  | .ok _, .error _ => isFalse (by simp)
  | .error _, .ok _ => isFalse (by simp)

theorem listToPoly_nil : listToPoly [] = 0 := rfl

theorem listToPoly_cons (c : ℚ) (cs : List ℚ) :
    listToPoly (c :: cs) = Polynomial.C c * Polynomial.X ^ cs.length + listToPoly cs := rfl

theorem listToPoly_append (a b : List ℚ) :
    listToPoly (a ++ b) = listToPoly a * Polynomial.X ^ b.length + listToPoly b := by
  induction a with
  | nil => simp [listToPoly]
  | cons c cs ih =>
      simp only [List.cons_append, listToPoly_cons, List.length_append, ih]
      ring

theorem listToPoly_replicate_zero (k : ℕ) : listToPoly (List.replicate k 0) = 0 := by
  induction k with
  | zero => rfl
  | succ n ih => simp [List.replicate_succ, listToPoly_cons, ih]

theorem listToPoly_replicate_append (k : ℕ) (l : List ℚ) :
    listToPoly (List.replicate k 0 ++ l) = listToPoly l := by
  rw [listToPoly_append, listToPoly_replicate_zero]
  ring

theorem listToPoly_append_replicate (l : List ℚ) (k : ℕ) :
    listToPoly (l ++ List.replicate k 0) = listToPoly l * Polynomial.X ^ k := by
  rw [listToPoly_append, listToPoly_replicate_zero, List.length_replicate]
  ring

theorem listToPoly_map_mul (c : ℚ) (l : List ℚ) :
    listToPoly (l.map (c * ·)) = Polynomial.C c * listToPoly l := by
  induction l with
  | nil => simp [listToPoly]
  | cons a as ih =>
      simp only [List.map_cons, listToPoly_cons, List.length_map, ih, map_mul]
      ring

theorem listToPoly_map_neg (l : List ℚ) :
    listToPoly (l.map (fun x => -x)) = -listToPoly l := by
  induction l with
  | nil => simp [listToPoly]
  | cons a as ih =>
      simp only [List.map_cons, listToPoly_cons, List.length_map, ih, map_neg]
      ring

theorem listToPoly_zipWith_add (p q : List ℚ) (h : p.length = q.length) :
    listToPoly (List.zipWith (· + ·) p q) = listToPoly p + listToPoly q := by
  induction p generalizing q with
  | nil =>
      cases q with
      | nil => simp [listToPoly]
      | cons b bs => simp at h
  | cons a as ih =>
      cases q with
      | nil => simp at h
      | cons b bs =>
          simp only [List.length_cons, Nat.succ_inj] at h
          simp only [List.zipWith_cons_cons, listToPoly_cons, List.length_zipWith, h,
            Nat.min_self, ih bs h, map_add]
          ring

theorem polyAdd_length (p q : List ℚ) : (polyAdd p q).length = max p.length q.length := by
  simp only [polyAdd, List.length_zipWith, List.length_append, List.length_replicate]
  omega

theorem listToPoly_polyAdd (p q : List ℚ) :
    listToPoly (polyAdd p q) = listToPoly p + listToPoly q := by
  rw [polyAdd, listToPoly_zipWith_add, listToPoly_replicate_append, listToPoly_replicate_append]
  simp only [List.length_append, List.length_replicate]
  omega

theorem listToPoly_polySmul (c : ℚ) (p : List ℚ) :
    listToPoly (polySmul c p) = Polynomial.C c * listToPoly p :=
  listToPoly_map_mul c p

theorem listToPoly_polySub (p q : List ℚ) :
    listToPoly (polySub p q) = listToPoly p - listToPoly q := by
  rw [polySub, listToPoly_polyAdd, listToPoly_map_neg]
  ring

theorem listToPoly_polyMul (p q : List ℚ) :
    listToPoly (polyMul p q) = listToPoly p * listToPoly q := by
  induction p with
  | nil => simp [polyMul, listToPoly]
  | cons a as ih =>
      simp only [polyMul, listToPoly_polyAdd, listToPoly_append_replicate,
        listToPoly_map_mul, ih, listToPoly_cons]
      ring

theorem polyMul_length (p q : List ℚ) (hp : p ≠ []) (hq : q ≠ []) :
    (polyMul p q).length = p.length + q.length - 1 := by
  induction p with
  | nil => exact absurd rfl hp
  | cons a as ih =>
      by_cases h : as = []
      · subst h
        simp [polyMul, polyAdd_length, List.length_append, List.length_replicate]
      · simp only [polyMul, polyAdd_length, List.length_append, List.length_replicate,
          List.length_map, ih h]
        have h1 : 1 ≤ as.length := List.length_pos.mpr h
        have h2 : 1 ≤ q.length := List.length_pos.mpr hq
        simp only [List.length_cons]
        omega

theorem simSamples_ok_fst (a : List (List ℚ)) (b c : List ℚ) (d bound : ℚ) (k : ℕ) :
    ∀ (ts : List ℚ) (t : ℚ) (x : List ℚ) (l : List (ℚ × ℚ)),
      simSamples a b c d bound k t x ts = .ok l → l.map Prod.fst = ts := by
  intro ts
  induction ts with
  | nil =>
      intro t x l h
      simp only [simSamples, Except.ok.injEq] at h
      subst h
      rfl
  | cons tj rest ih =>
      intro t x l h
      simp only [simSamples] at h
      split at h
      · exact absurd h (by simp)
      · rename_i x1 hadv
        split at h
        · rename_i hy
          split at h
          · exact absurd h (by simp)
          · rename_i tail hrec
            simp only [Except.ok.injEq] at h
            subst h
            simp only [List.map_cons]
            exact congrArg (List.cons tj) (ih tj x1 tail hrec)
        · exact absurd h (by simp)

theorem simSamples_ok_bound (a : List (List ℚ)) (b c : List ℚ) (d bound : ℚ) (k : ℕ) :
    ∀ (ts : List ℚ) (t : ℚ) (x : List ℚ) (l : List (ℚ × ℚ)),
      simSamples a b c d bound k t x ts = .ok l → ∀ p ∈ l, |p.2| ≤ bound := by
  simp only [abs_le]
  intro ts
  induction ts with
  | nil =>
      intro t x l h
      simp only [simSamples, Except.ok.injEq] at h
      subst h
      intro p hp
      exact absurd hp (List.not_mem_nil p)
  | cons tj rest ih =>
      intro t x l h
      simp only [simSamples] at h
      split at h
      · exact absurd h (by simp)
      · rename_i x1 hadv
        split at h
        · rename_i hy
          split at h
          · exact absurd h (by simp)
          · rename_i tail hrec
            simp only [Except.ok.injEq] at h
            subst h
            intro p hp
            rcases List.mem_cons.mp hp with hp1 | hp2
            · subst hp1
              exact hy
            · exact ih tj x1 tail hrec p hp2
        · exact absurd h (by simp)

theorem simulate_ok_times (m : LinearModel) (grid : List ℚ) (k : ℕ) (bound : ℚ) (tr : Traj)
    (h : simulate m grid k bound = .ok tr) : tr.samples.map Prod.fst = grid := by
  simp only [simulate, simulateFrom] at h
  by_cases hl : grid.length < 2
  · rw [if_pos hl] at h
    exact absurd h (by simp)
  · rw [if_neg hl] at h
    cases hs : simSamples (matToLists m.realize.2.A) (colToList m.realize.2.B)
        (rowToList m.realize.2.C) m.realize.2.D bound k 0
        (List.replicate m.stateDim 0) grid with
    | error e =>
        rw [hs] at h
        exact absurd h (by simp [Except.map])
    | ok l =>
        rw [hs] at h
        simp only [Except.map, Except.ok.injEq] at h
        subst h
        exact simSamples_ok_fst _ _ _ _ _ _ grid 0 _ l hs

theorem simulate_ok_bound (m : LinearModel) (grid : List ℚ) (k : ℕ) (bound : ℚ) (tr : Traj)
    (h : simulate m grid k bound = .ok tr) : ∀ p ∈ tr.samples, |p.2| ≤ bound := by
  simp only [simulate, simulateFrom] at h
  by_cases hl : grid.length < 2
  · rw [if_pos hl] at h
    exact absurd h (by simp)
  · rw [if_neg hl] at h
    cases hs : simSamples (matToLists m.realize.2.A) (colToList m.realize.2.B)
        (rowToList m.realize.2.C) m.realize.2.D bound k 0
        (List.replicate m.stateDim 0) grid with
    | error e =>
        rw [hs] at h
        exact absurd h (by simp [Except.map])
    | ok l =>
        rw [hs] at h
        simp only [Except.map, Except.ok.injEq] at h
        subst h
        exact simSamples_ok_bound _ _ _ _ _ _ grid 0 _ l hs

theorem simulate_run_stable1 :
    simulate (.tfm ⟨[1], [1, 1]⟩) [0, 1] 1 defaultBound
      = .ok (Traj.mk [(0, 0), (1, 5/8)]) := by
  unfold simulate simulateFrom LinearModel.stateDim LinearModel.realize toStateSpace
    matToLists colToList rowToList
  norm_num [List.ofFn_succ, simSamples, advance, rk4Step,
    stateInBound, vecAdd, vecSmul, matVecL, dotL, defaultBound, Except.map]

theorem simulate_run_stable2 :
    simulate (.tfm ⟨[1], [1, 1]⟩) [0, 2] 1 defaultBound
      = .ok (Traj.mk [(0, 0), (2, 2/3)]) := by
  unfold simulate simulateFrom LinearModel.stateDim LinearModel.realize toStateSpace
    matToLists colToList rowToList
  norm_num [List.ofFn_succ, simSamples, advance, rk4Step,
    stateInBound, vecAdd, vecSmul, matVecL, dotL, defaultBound, Except.map]

theorem simulate_run_rhp :
    simulate (.tfm ⟨[1], [1, -1]⟩) rhpGrid 1 defaultBound
      = .error (.integrationDivergedError 21) := by
  unfold simulate simulateFrom LinearModel.stateDim LinearModel.realize toStateSpace
    matToLists colToList rowToList rhpGrid
  norm_num [List.range_succ, List.ofFn_succ, simSamples, advance, rk4Step,
    stateInBound, vecAdd, vecSmul, matVecL, dotL, defaultBound, Except.map]

/-- C7: for every model, simulate fails with EmptyGridError whenever the time
grid contains fewer than two points. -/
theorem simulate_empty_grid (m : LinearModel) (grid : List ℚ) (k : ℕ) (bound : ℚ)
    (h : grid.length < 2) : simulate m grid k bound = .error .emptyGridError := by
  rw [simulate, simulateFrom, if_pos h]

theorem simulate_empty_grid_witness :
    ([(0 : ℚ)] : List ℚ).length < 2 ∧
      simulate (.tfm ⟨[1], [1, 1]⟩) [(0 : ℚ)] 1 defaultBound = .error .emptyGridError :=
  ⟨by decide, simulate_empty_grid (.tfm ⟨[1], [1, 1]⟩) [(0 : ℚ)] 1 defaultBound (by decide)⟩

/-- C9: two calls of simulate with the same model, grid, substep count and bound
return identical results, and every call integrates from the fresh
all-zero initial state of the realization: the simulator is a pure function
with no persistent state across calls. -/
theorem simulate_pure (m : LinearModel) (grid : List ℚ) (k : ℕ) (bound : ℚ) :
    simulate m grid k bound = simulate m grid k bound ∧
      simulate m grid k bound
        = simulateFrom (List.replicate m.stateDim 0) m grid k bound :=
  ⟨rfl, rfl⟩

/-- C1 counterexample: a strictly increasing, non-empty grid of non-negative
times with a single point does not yield a Trajectory at all — simulate
rejects it with EmptyGridError — so the claim as stated (for every non-empty
grid) is false. -/
theorem simulate_singleton_grid_no_traj :
    ¬ ∃ tr : Traj, simulate (.tfm ⟨[1], [1, 1]⟩) [(0 : ℚ)] 1 defaultBound = .ok tr := by
  intro ⟨tr, h⟩
  rw [simulate, simulateFrom, if_pos (by decide : ([(0 : ℚ)] : List ℚ).length < 2)] at h
  exact Except.noConfusion h

/-- C1 (amended to grids with at least two points, conditional on the
integration not diverging): whenever simulate returns a Trajectory, its
time values equal the requested grid exactly, element by element, for every
internal substep count k and every bound. -/
theorem simulate_grid_fidelity (m : LinearModel) (grid : List ℚ) (k : ℕ) (bound : ℚ)
    (h2 : 2 ≤ grid.length) (tr : Traj) (h : simulate m grid k bound = .ok tr) :
    tr.samples.map Prod.fst = grid :=
  simulate_ok_times m grid k bound tr h

theorem simulate_grid_fidelity_witness :
    2 ≤ ([(0 : ℚ), 1] : List ℚ).length ∧
      (Traj.mk [((0 : ℚ), (0 : ℚ)), (1, 5/8)]).samples.map Prod.fst = [(0 : ℚ), 1] :=
  ⟨by decide,
    simulate_grid_fidelity (.tfm ⟨[1], [1, 1]⟩) [(0 : ℚ), 1] 1 defaultBound (by decide)
      (Traj.mk [((0 : ℚ), (0 : ℚ)), (1, 5/8)]) simulate_run_stable1⟩

/-- C8: every trajectory simulate returns has all output magnitudes within the
configured bound — exceeding the bound always surfaces as an error instead of
being returned — and the right-half-plane example 1/(s − 1) under a unit step
on a long enough grid is rejected with IntegrationDivergedError carrying the
time at which divergence was detected. -/
theorem simulate_divergence_guard :
    (∀ (m : LinearModel) (grid : List ℚ) (k : ℕ) (bound : ℚ) (tr : Traj),
        simulate m grid k bound = .ok tr → ∀ p ∈ tr.samples, |p.2| ≤ bound) ∧
      simulate (.tfm ⟨[1], [1, -1]⟩) rhpGrid 1 defaultBound
        = .error (.integrationDivergedError 21) :=
  ⟨simulate_ok_bound, simulate_run_rhp⟩

theorem simulate_divergence_guard_witness :
    ∀ p ∈ (Traj.mk [((0 : ℚ), (0 : ℚ)), (2, 2/3)]).samples, |p.2| ≤ defaultBound :=
  simulate_divergence_guard.1 (.tfm ⟨[1], [1, 1]⟩) [(0 : ℚ), 2] 1 defaultBound
    (Traj.mk [((0 : ℚ), (0 : ℚ)), (2, 2/3)]) simulate_run_stable2

theorem polyAdd_headI (p q : List ℚ) (h : q.length < p.length) :
    (polyAdd p q).headI = p.headI := by
  have hp : p ≠ [] := List.ne_nil_of_length_pos (by omega)
  obtain ⟨a, as, rfl⟩ := List.exists_cons_of_ne_nil hp
  unfold polyAdd
  rw [max_eq_left (Nat.le_of_lt h), Nat.sub_self, List.replicate_zero, List.nil_append]
  obtain ⟨k, hk⟩ : ∃ k, (a :: as).length - q.length = k + 1 :=
    ⟨(a :: as).length - q.length - 1,
      by simp only [List.length_cons] at h ⊢; omega⟩
  rw [hk, List.replicate_succ, List.cons_append, List.zipWith_cons_cons]
  simp

theorem polyMul_headI (a b : ℚ) (as bs : List ℚ) :
    (polyMul (a :: as) (b :: bs)).headI = a * b := by
  have hlen : (polyMul as (b :: bs)).length
      < ((b :: bs).map (a * ·) ++ List.replicate as.length 0).length := by
    by_cases h : as = []
    · subst h
      simp [polyMul]
    · rw [List.length_append, List.length_map, List.length_replicate,
        polyMul_length as (b :: bs) h (by simp)]
      have : 1 ≤ as.length := List.length_pos.mpr h
      simp only [List.length_cons]
      omega
  show (polyAdd ((b :: bs).map (a * ·) ++ List.replicate as.length 0)
      (polyMul as (b :: bs))).headI = a * b
  rw [polyAdd_headI _ _ hlen]
  simp

theorem polyMul_ne_nil (p q : List ℚ) (hp : p ≠ []) (hq : q ≠ []) : polyMul p q ≠ [] := by
  have hlen := polyMul_length p q hp hq
  intro hnil
  rw [hnil] at hlen
  simp only [List.length_nil] at hlen
  have h1 : 1 ≤ p.length := List.length_pos.mpr hp
  have h2 : 1 ≤ q.length := List.length_pos.mpr hq
  omega

/-- C3 counterexample: at the well-formed open loop num = den = [1] with
sign = +1 (positive feedback of the constant system 1), the reduction
den − sign·num is the zero polynomial, so unityFeedback fails with
InvalidModelError rather than returning the LinearModel the claim promises. -/
theorem unityFeedback_zero_denominator :
    unityFeedback (.tfm ⟨[(1 : ℚ)], [1]⟩) 1 = .error .invalidModelError ∧
      ¬ ∃ m : LinearModel, unityFeedback (.tfm ⟨[(1 : ℚ)], [1]⟩) 1 = .ok m := by
  have h : unityFeedback (.tfm ⟨[(1 : ℚ)], [1]⟩) 1 = .error .invalidModelError := by
    unfold unityFeedback LinearModel.toTF
    norm_num [polySub, polySmul, polyAdd, List.forall_mem_cons]
  refine ⟨h, ?_⟩
  intro ⟨m, hm⟩
  rw [h] at hm
  exact Except.noConfusion hm

theorem unityFeedback_witness_nz :
    ∃ c ∈ polySub [(1 : ℚ), 1] (polySmul (-1) [1]), c ≠ 0 := by
  have h : polySub [(1 : ℚ), 1] (polySmul (-1) [1]) = [1, 2] := by
    norm_num [polySub, polySmul, polyAdd]
  rw [h]
  refine ⟨1, by norm_num, by norm_num⟩

/-- C3 (amended: the reduced denominator must not be the zero polynomial,
otherwise unityFeedback fails with InvalidModelError): for every well-formed
open-loop transfer function num/den and every sign such that den − sign·num
has some non-zero coefficient, unityFeedback succeeds and returns the model
with numerator num and denominator den − sign·num (coefficient-wise via the
polynomial interpretation), and its transfer function is
openLoop / (1 − sign·openLoop) pointwise wherever both denominators are
non-zero.  Proved for every rational sign, which covers the claimed
signs −1 and +1. -/
theorem unityFeedback_formula (num den : List ℚ) (sign : ℚ)
    (hwf : wellFormed ⟨num, den⟩)
    (hnz : ∃ c ∈ polySub den (polySmul sign num), c ≠ 0) :
    unityFeedback (.tfm ⟨num, den⟩) sign
        = .ok (.tfm ⟨num, polySub den (polySmul sign num)⟩) ∧
    listToPoly (polySub den (polySmul sign num))
      = listToPoly den - Polynomial.C sign * listToPoly num ∧
    ∀ x : ℚ, (listToPoly den).eval x ≠ 0 →
      (listToPoly (polySub den (polySmul sign num))).eval x ≠ 0 →
      (listToPoly num).eval x / (listToPoly (polySub den (polySmul sign num))).eval x
        = ((listToPoly num).eval x / (listToPoly den).eval x)
          / (1 - sign * ((listToPoly num).eval x / (listToPoly den).eval x)) := by
  have hcond : ¬ ∀ c ∈ polySub den (polySmul sign num), c = 0 := by
    obtain ⟨c, hc, hne⟩ := hnz
    intro hall
    exact hne (hall c hc)
  refine ⟨?_, ?_, ?_⟩
  · show (if ∀ c ∈ polySub den (polySmul sign num), c = 0 then
        (Except.error ModelError.invalidModelError : Except ModelError LinearModel)
      else .ok (.tfm ⟨num, polySub den (polySmul sign num)⟩))
        = .ok (.tfm ⟨num, polySub den (polySmul sign num)⟩)
    rw [if_neg hcond]
  · rw [listToPoly_polySub, listToPoly_polySmul]
  · intro x hD hD2
    rw [listToPoly_polySub, listToPoly_polySmul] at hD2
    rw [listToPoly_polySub, listToPoly_polySmul]
    simp only [Polynomial.eval_sub, Polynomial.eval_mul, Polynomial.eval_C] at hD2 ⊢
    set N := (listToPoly num).eval x with hN
    set D := (listToPoly den).eval x with hDdef
    have h1 : 1 - sign * (N / D) = (D - sign * N) / D := by
      field_simp
    rw [h1]
    field_simp

theorem unityFeedback_formula_witness :
    wellFormed ⟨[1], [1, 1]⟩ ∧
      (∃ c ∈ polySub [(1 : ℚ), 1] (polySmul (-1) [1]), c ≠ 0) ∧
      unityFeedback (.tfm ⟨[(1 : ℚ)], [1, 1]⟩) (-1)
        = .ok (.tfm ⟨[(1 : ℚ)], polySub [(1 : ℚ), 1] (polySmul (-1) [1])⟩) :=
  ⟨by decide, unityFeedback_witness_nz,
    (unityFeedback_formula [(1 : ℚ)] [1, 1] (-1) (by decide) unityFeedback_witness_nz).1⟩

/-- C4: for every two well-formed transfer functions, series succeeds and
returns (num1·num2)/(den1·den2) — polynomial multiplication of numerators and
of denominators — the result is well-formed, and its order is the sum of the
two input orders (no pole-zero cancellation). -/
theorem series_formula (t1 t2 : TransferFunctionModel)
    (h1 : wellFormed t1) (h2 : wellFormed t2) :
    (series (.tfm t1) (.tfm t2)).toTF
        = ⟨polyMul t1.num t2.num, polyMul t1.den t2.den⟩ ∧
    listToPoly (series (.tfm t1) (.tfm t2)).toTF.num
        = listToPoly t1.num * listToPoly t2.num ∧
    listToPoly (series (.tfm t1) (.tfm t2)).toTF.den
        = listToPoly t1.den * listToPoly t2.den ∧
    wellFormed (series (.tfm t1) (.tfm t2)).toTF ∧
    (series (.tfm t1) (.tfm t2)).toTF.order = t1.order + t2.order := by
  obtain ⟨hn1, hd1, hh1⟩ := h1
  obtain ⟨hn2, hd2, hh2⟩ := h2
  refine ⟨rfl, listToPoly_polyMul _ _, listToPoly_polyMul _ _, ⟨?_, ?_, ?_⟩, ?_⟩
  · exact polyMul_ne_nil _ _ hn1 hn2
  · exact polyMul_ne_nil _ _ hd1 hd2
  · show (polyMul t1.den t2.den).headI ≠ 0
    obtain ⟨a, as, e1⟩ := List.exists_cons_of_ne_nil hd1
    obtain ⟨b, bs, e2⟩ := List.exists_cons_of_ne_nil hd2
    rw [e1] at hh1
    rw [e2] at hh2
    rw [e1, e2, polyMul_headI]
    exact mul_ne_zero hh1 hh2
  · show (polyMul t1.den t2.den).length - 1
        = (t1.den.length - 1) + (t2.den.length - 1)
    rw [polyMul_length _ _ hd1 hd2]
    have e1 : 1 ≤ t1.den.length := List.length_pos.mpr hd1
    have e2 : 1 ≤ t2.den.length := List.length_pos.mpr hd2
    omega

theorem series_formula_witness :
    wellFormed ⟨[1], [1, 0]⟩ ∧ wellFormed ⟨[2], [1, 1]⟩ ∧
      (series (.tfm ⟨[1], [1, 0]⟩) (.tfm ⟨[2], [1, 1]⟩)).toTF.order
        = TransferFunctionModel.order ⟨[1], [1, 0]⟩
            + TransferFunctionModel.order ⟨[2], [1, 1]⟩ :=
  ⟨by decide, by decide,
    (series_formula ⟨[1], [1, 0]⟩ ⟨[2], [1, 1]⟩ (by decide) (by decide)).2.2.2.2⟩

/-- C6: series composition is associative in the transfer-function sense: both
associations produce the same numerator polynomial and the same denominator
polynomial, hence equal transfer functions. -/
theorem series_assoc (t1 t2 t3 : TransferFunctionModel)
    (h1 : wellFormed t1) (h2 : wellFormed t2) (h3 : wellFormed t3) :
    listToPoly (series (series (.tfm t1) (.tfm t2)) (.tfm t3)).toTF.num
        = listToPoly (series (.tfm t1) (series (.tfm t2) (.tfm t3))).toTF.num ∧
      listToPoly (series (series (.tfm t1) (.tfm t2)) (.tfm t3)).toTF.den
        = listToPoly (series (.tfm t1) (series (.tfm t2) (.tfm t3))).toTF.den := by
  constructor
  · show listToPoly (polyMul (polyMul t1.num t2.num) t3.num)
        = listToPoly (polyMul t1.num (polyMul t2.num t3.num))
    rw [listToPoly_polyMul, listToPoly_polyMul, listToPoly_polyMul, listToPoly_polyMul,
      mul_assoc]
  · show listToPoly (polyMul (polyMul t1.den t2.den) t3.den)
        = listToPoly (polyMul t1.den (polyMul t2.den t3.den))
    rw [listToPoly_polyMul, listToPoly_polyMul, listToPoly_polyMul, listToPoly_polyMul,
      mul_assoc]

theorem series_assoc_witness :
    wellFormed ⟨[1], [1, 0]⟩ ∧ wellFormed ⟨[1], [1, 1]⟩ ∧ wellFormed ⟨[2], [1, 2]⟩ ∧
      listToPoly (series (series (.tfm ⟨[1], [1, 0]⟩) (.tfm ⟨[1], [1, 1]⟩))
            (.tfm ⟨[2], [1, 2]⟩)).toTF.num
        = listToPoly (series (.tfm ⟨[1], [1, 0]⟩)
            (series (.tfm ⟨[1], [1, 1]⟩) (.tfm ⟨[2], [1, 2]⟩))).toTF.num :=
  ⟨by decide, by decide, by decide,
    (series_assoc ⟨[1], [1, 0]⟩ ⟨[1], [1, 1]⟩ ⟨[2], [1, 2]⟩
      (by decide) (by decide) (by decide)).1⟩

theorem linspace_length (a b : ℚ) (n : ℕ) : (linspace a b n).length = n := by
  simp only [linspace, List.length_map, List.length_range]

theorem linspace_getD (a b : ℚ) (n i : ℕ) (h : i < n) :
    (linspace a b n).getD i 0 = a + (b - a) * i / ((n : ℚ) - 1) := by
  have hl : i < (linspace a b n).length := by
    simpa only [linspace, List.length_map, List.length_range] using h
  rw [List.getD_eq_getElem _ _ hl]
  simp only [linspace, List.getElem_map, List.getElem_range]

theorem linspace_zero_headI (b : ℚ) (n : ℕ) : (linspace 0 b n).headI = 0 := by
  cases n with
  | zero => rfl
  | succ m =>
      rw [linspace, List.range_succ_eq_map]
      simp

/-- C10: each scenario function simulates over the uniformly spaced grid
linspace(0, t_last, n) determined only by the length n and last element t_last
of its input time array: the grid has the same length, starts at 0, has
constant spacing t_last/(n−1), ends at t_last (when n ≥ 2), is identical for
any two inputs agreeing in length and last element, and the returned
trajectory (when simulation succeeds) carries exactly this grid as its time
values. -/
theorem scenario_grids (time : List ℚ) (h : time ≠ []) :
    third_order_system time
        = simulate thirdOrderClosed (linspace 0 (time.getLastD 0) time.length) 1
            defaultBound ∧
    rl_circuit_open time
        = simulate rlPlantSS (linspace 0 (time.getLastD 0) time.length) 1 defaultBound ∧
    rl_circuit_closed time
        = simulate rlClosed (linspace 0 (time.getLastD 0) time.length) 1 defaultBound ∧
    (linspace 0 (time.getLastD 0) time.length).length = time.length ∧
    (linspace 0 (time.getLastD 0) time.length).headI = 0 ∧
    (∀ i, i + 1 < time.length →
      (linspace 0 (time.getLastD 0) time.length).getD (i + 1) 0
          - (linspace 0 (time.getLastD 0) time.length).getD i 0
        = time.getLastD 0 / ((time.length : ℚ) - 1)) ∧
    (2 ≤ time.length →
      (linspace 0 (time.getLastD 0) time.length).getD (time.length - 1) 0
        = time.getLastD 0) ∧
    (∀ time2 : List ℚ, time2.length = time.length →
      time2.getLastD 0 = time.getLastD 0 →
      linspace 0 (time2.getLastD 0) time2.length
        = linspace 0 (time.getLastD 0) time.length) ∧
    (∀ tr : Traj, third_order_system time = .ok tr →
      tr.samples.map Prod.fst = linspace 0 (time.getLastD 0) time.length) ∧
    (∀ tr : Traj, rl_circuit_open time = .ok tr →
      tr.samples.map Prod.fst = linspace 0 (time.getLastD 0) time.length) ∧
    (∀ tr : Traj, rl_circuit_closed time = .ok tr →
      tr.samples.map Prod.fst = linspace 0 (time.getLastD 0) time.length) := by
  refine ⟨rfl, rfl, rfl, linspace_length _ _ _, linspace_zero_headI _ _, ?_, ?_, ?_,
    ?_, ?_, ?_⟩
  · intro i hi
    rw [linspace_getD _ _ _ _ (by omega), linspace_getD _ _ _ _ (by omega)]
    rw [zero_add, zero_add, sub_zero, div_sub_div_same]
    congr 1
    push_cast
    ring
  · intro h2
    rw [linspace_getD _ _ _ _ (by omega)]
    have hc : ((time.length - 1 : ℕ) : ℚ) = (time.length : ℚ) - 1 := by
      rw [Nat.cast_sub (by omega)]
      norm_num
    have hn1 : (time.length : ℚ) - 1 ≠ 0 := by
      have : (time.length : ℚ) ≠ 1 := by
        exact_mod_cast (by omega : time.length ≠ 1)
      exact sub_ne_zero.mpr this
    rw [hc]
    field_simp
  · intro time2 hlen hlast
    rw [hlen, hlast]
  · intro tr htr
    exact simulate_ok_times _ _ _ _ tr htr
  · intro tr htr
    exact simulate_ok_times _ _ _ _ tr htr
  · intro tr htr
    exact simulate_ok_times _ _ _ _ tr htr

theorem scenario_grids_witness :
    ([(0 : ℚ), 1] : List ℚ) ≠ [] ∧
      (linspace 0 (([(0 : ℚ), 1] : List ℚ).getLastD 0)
          ([(0 : ℚ), 1] : List ℚ).length).length = ([(0 : ℚ), 1] : List ℚ).length :=
  ⟨by decide, (scenario_grids [(0 : ℚ), 1] (by decide)).2.2.2.1⟩

theorem rlClosed_eq : rlClosed = .tfm ⟨[0, 1, 0], [1/20, 6, 0]⟩ := by
  unfold rlClosed unityFeedback series LinearModel.toTF pidRL rlPlantTf
  norm_num [polyMul, polyAdd, polySub, polySmul, List.replicate_succ, List.forall_mem_cons]

/-- C2 (record of the source defect): at a run where the recorded open-loop
grid is [0, 1] and the recorded closed-loop grid is [0, 2], the script computes
the closed-loop reference as rl_circuit_closed applied to the open-loop grid;
the resulting reference trajectory carries the time values [0, 1] derived from
the open-loop recording, while the grid the closed-loop recording mandates is
linspace(0, 2, 2) = [0, 2] ≠ [0, 1]. -/
theorem rl_closed_reference_uses_open_grid :
    (scriptRefs [0, 1] [0, 1] [0, 2]).2.2 = rl_circuit_closed [0, 1] ∧
    rl_circuit_closed [0, 1] = .ok (Traj.mk [(0, 0), (1, -1393180)]) ∧
    (Traj.mk [((0 : ℚ), (0 : ℚ)), (1, -1393180)]).samples.map Prod.fst = [0, 1] ∧
    linspace 0 (([0, 2] : List ℚ).getLastD 0) ([0, 2] : List ℚ).length = [0, 2] ∧
    ([0, 1] : List ℚ) ≠ [0, 2] := by
  refine ⟨rfl, ?_, by decide, ?_, by decide⟩
  · unfold rl_circuit_closed
    rw [rlClosed_eq]
    unfold linspace simulate simulateFrom LinearModel.stateDim LinearModel.realize
      toStateSpace matToLists colToList rowToList
    norm_num [List.range_succ, List.ofFn_succ,
      List.replicate_succ, List.reverse_cons, List.reverse_nil,
      List.getD_cons_zero, List.getD_cons_succ,
      simSamples, advance, rk4Step,
      stateInBound, vecAdd, vecSmul, matVecL, dotL, defaultBound, Except.map]
  · norm_num [linspace, List.range_succ]

theorem listToPoly_eq_sum (l : List ℚ) :
    listToPoly l = ∑ j ∈ Finset.range l.length,
      Polynomial.C (l.reverse.getD j 0) * Polynomial.X ^ j := by
  induction l with
  | nil => simp [listToPoly]
  | cons c cs ih =>
      rw [listToPoly_cons, ih, List.length_cons, Finset.sum_range_succ]
      have htop : (c :: cs).reverse.getD cs.length 0 = c := by
        rw [List.reverse_cons, List.getD_append_right _ _ _ _ (by simp)]
        simp
      have hlow : ∀ j ∈ Finset.range cs.length,
          Polynomial.C ((c :: cs).reverse.getD j 0) * Polynomial.X ^ j
            = Polynomial.C (cs.reverse.getD j 0) * Polynomial.X ^ j := by
        intro j hj
        rw [List.reverse_cons,
          List.getD_append _ _ _ _ (by simpa using Finset.mem_range.mp hj)]
      rw [htop, Finset.sum_congr rfl hlow]
      ring

theorem denP_tail_degree_lt (n : ℕ) (a : Fin n → ℚ) :
    (∑ j : Fin n, Polynomial.C (a j) * Polynomial.X ^ (j : ℕ)).degree < (n : WithBot ℕ) := by
  apply lt_of_le_of_lt (Polynomial.degree_sum_le _ _)
  exact (Finset.sup_lt_iff (WithBot.bot_lt_coe n)).mpr fun j _ =>
    lt_of_le_of_lt (Polynomial.degree_C_mul_X_pow_le _ _)
      (by exact WithBot.coe_lt_coe.mpr j.isLt)

theorem denP_monic (n : ℕ) (a : Fin n → ℚ) : (denP n a).Monic :=
  Polynomial.monic_X_pow_add (denP_tail_degree_lt n a)

theorem denP_ne_zero (n : ℕ) (a : Fin n → ℚ) : denP n a ≠ 0 :=
  (denP_monic n a).ne_zero

theorem denP_degree (n : ℕ) (a : Fin n → ℚ) : (denP n a).degree = n := by
  rw [denP, Polynomial.degree_add_eq_left_of_degree_lt, Polynomial.degree_X_pow]
  rw [Polynomial.degree_X_pow]
  exact denP_tail_degree_lt n a

theorem denP_natDegree (n : ℕ) (a : Fin n → ℚ) : (denP n a).natDegree = n :=
  Polynomial.natDegree_eq_of_degree_eq_some (denP_degree n a)

theorem denP_eq_listToPoly (rest : List ℚ) :
    denP rest.length (fun j => rest.reverse.getD (j : ℕ) 0) = listToPoly (1 :: rest) := by
  rw [denP, listToPoly_eq_sum, List.length_cons, Finset.sum_range_succ]
  have htop : (1 :: rest).reverse.getD rest.length 0 = 1 := by
    rw [List.reverse_cons, List.getD_append_right _ _ _ _ (by simp)]
    simp
  have hlow : ∀ j ∈ Finset.range rest.length,
      Polynomial.C ((1 :: rest).reverse.getD j 0) * Polynomial.X ^ j
        = Polynomial.C (rest.reverse.getD j 0) * Polynomial.X ^ j := by
    intro j hj
    rw [List.reverse_cons,
      List.getD_append _ _ _ _ (by simpa using Finset.mem_range.mp hj)]
  rw [htop, Finset.sum_congr rfl hlow, Fin.sum_univ_eq_sum_range
    (fun j => Polynomial.C (rest.reverse.getD j 0) * Polynomial.X ^ j) rest.length]
  simp [add_comm]

theorem charm_compA_mulVec (n : ℕ) (hn : 0 < n) (a : Fin n → ℚ) :
    (Matrix.charmatrix (compA n a)).mulVec
        (fun j : Fin n => (Polynomial.X : Polynomial ℚ) ^ (j : ℕ))
      = Pi.single (⟨n - 1, by omega⟩ : Fin n) (denP n a) := by
  funext i
  simp only [Matrix.mulVec, Matrix.dotProduct, Matrix.charmatrix_apply,
    Matrix.diagonal_apply, sub_mul, ite_mul, zero_mul]
  rw [Finset.sum_sub_distrib, Finset.sum_ite_eq]
  simp only [Finset.mem_univ, if_true]
  by_cases hii : (i : ℕ) = n - 1
  · rw [Pi.single_apply, if_pos (Fin.ext hii)]
    have hterm : ∀ j : Fin n,
        Polynomial.C (compA n a i j) * Polynomial.X ^ (j : ℕ)
          = -(Polynomial.C (a j) * Polynomial.X ^ (j : ℕ)) := by
      intro j
      have hc : compA n a i j = -(a j) := by
        simp only [compA]
        have hj := j.isLt
        rw [if_neg (by omega), if_pos hii]
      rw [hc, map_neg, neg_mul]
    rw [Finset.sum_congr rfl (fun j _ => hterm j), Finset.sum_neg_distrib, sub_neg_eq_add,
      denP]
    congr 1
    rw [← pow_succ']
    congr 1
    omega
  · rw [Pi.single_apply, if_neg (fun hcon => hii (by rw [hcon]))]
    have hlt : (i : ℕ) + 1 < n := by
      have := i.isLt
      omega
    have hterm : ∀ j : Fin n,
        Polynomial.C (compA n a i j) * Polynomial.X ^ (j : ℕ)
          = if (⟨(i : ℕ) + 1, hlt⟩ : Fin n) = j then Polynomial.X ^ (j : ℕ) else 0 := by
      intro j
      simp only [compA]
      by_cases hj : (i : ℕ) + 1 = (j : ℕ)
      · rw [if_pos hj, map_one, one_mul, if_pos (Fin.ext hj)]
      · rw [if_neg hj, if_neg hii, map_zero, zero_mul,
          if_neg (fun hcon => hj (by rw [← Fin.ext_iff.mp hcon]))]
    rw [Finset.sum_congr rfl (fun j _ => hterm j), Finset.sum_ite_eq]
    simp only [Finset.mem_univ, if_true]
    rw [← pow_succ']
    simp

theorem charm_compA_adj_mul (n : ℕ) (hn : 0 < n) (a : Fin n → ℚ) (i : Fin n) :
    Matrix.adjugate (Matrix.charmatrix (compA n a)) i (⟨n - 1, by omega⟩ : Fin n)
        * denP n a
      = (Matrix.charmatrix (compA n a)).det * Polynomial.X ^ (i : ℕ) := by
  have h1 := congrFun (congrArg
    (fun w => (Matrix.adjugate (Matrix.charmatrix (compA n a))).mulVec w)
    (charm_compA_mulVec n hn a)) i
  dsimp only at h1
  rw [Matrix.mulVec_mulVec, Matrix.adjugate_mul, Matrix.smul_mulVec_assoc,
    Matrix.one_mulVec, Matrix.mulVec_single] at h1
  simpa [smul_eq_mul] using h1.symm

theorem charm_compA_det (n : ℕ) (hn : 0 < n) (a : Fin n → ℚ) :
    (Matrix.charmatrix (compA n a)).det = denP n a := by
  have h0 := charm_compA_adj_mul n hn a ⟨0, hn⟩
  rw [pow_zero, mul_one] at h0
  have hdet_monic : ((Matrix.charmatrix (compA n a)).det).Monic := by
    have hc := Matrix.charpoly_monic (compA n a)
    rwa [Matrix.charpoly] at hc
  have hdet_deg : ((Matrix.charmatrix (compA n a)).det).natDegree = n := by
    have hc := Matrix.charpoly_natDegree_eq_dim (compA n a)
    rwa [Matrix.charpoly, Fintype.card_fin] at hc
  have hq0 : Matrix.adjugate (Matrix.charmatrix (compA n a)) ⟨0, hn⟩
      (⟨n - 1, by omega⟩ : Fin n) ≠ 0 := by
    intro hq
    rw [hq, zero_mul] at h0
    exact hdet_monic.ne_zero h0.symm
  have hqdeg : (Matrix.adjugate (Matrix.charmatrix (compA n a)) ⟨0, hn⟩
      (⟨n - 1, by omega⟩ : Fin n)).natDegree = 0 := by
    have hmul := Polynomial.natDegree_mul hq0 (denP_ne_zero n a)
    rw [h0] at hmul
    have hd2 := denP_natDegree n a
    omega
  have hqlead : (Matrix.adjugate (Matrix.charmatrix (compA n a)) ⟨0, hn⟩
      (⟨n - 1, by omega⟩ : Fin n)).coeff 0 = 1 := by
    have hl : (Matrix.adjugate (Matrix.charmatrix (compA n a)) ⟨0, hn⟩
          (⟨n - 1, by omega⟩ : Fin n)).leadingCoeff * (denP n a).leadingCoeff
        = ((Matrix.charmatrix (compA n a)).det).leadingCoeff := by
      rw [← Polynomial.leadingCoeff_mul, h0]
    rw [(denP_monic n a).leadingCoeff, hdet_monic.leadingCoeff, mul_one] at hl
    rw [Polynomial.leadingCoeff, hqdeg] at hl
    exact hl
  have hq1 : Matrix.adjugate (Matrix.charmatrix (compA n a)) ⟨0, hn⟩
      (⟨n - 1, by omega⟩ : Fin n) = 1 := by
    have hc := Polynomial.eq_C_of_natDegree_eq_zero hqdeg
    rw [hc, hqlead, map_one]
  rw [← h0, hq1, one_mul]

theorem charm_compA_adjugate (n : ℕ) (hn : 0 < n) (a : Fin n → ℚ) (i : Fin n) :
    Matrix.adjugate (Matrix.charmatrix (compA n a)) i (⟨n - 1, by omega⟩ : Fin n)
      = Polynomial.X ^ (i : ℕ) := by
  apply mul_right_cancel₀ (denP_ne_zero n a)
  rw [charm_compA_adj_mul n hn a i, charm_compA_det n hn a, mul_comm]

theorem ssToTfPoly_def {n : ℕ} (s : StateSpaceModel n) :
    ssToTfPoly s
      = (((s.C.map Polynomial.C) * (Matrix.charmatrix s.A).adjugate
            * (s.B.map Polynomial.C)) 0 0
          + Polynomial.C s.D * (Matrix.charmatrix s.A).det,
        (Matrix.charmatrix s.A).det) := rfl

theorem ssToTfPoly_compA (n : ℕ) (hn : 0 < n) (a c : Fin n → ℚ) (d : ℚ) :
    ssToTfPoly ({ A := compA n a,
                  B := fun i _ => if (i : ℕ) = n - 1 then 1 else 0,
                  C := fun _ j => c j,
                  D := d } : StateSpaceModel n)
      = (∑ i : Fin n, Polynomial.C (c i) * Polynomial.X ^ (i : ℕ)
          + Polynomial.C d * denP n a,
        denP n a) := by
  rw [ssToTfPoly_def]
  dsimp only
  rw [charm_compA_det n hn a]
  congr 1
  congr 1
  rw [Matrix.mul_apply]
  have hcond : ∀ j : Fin n,
      ((j : ℕ) = n - 1) = (j = (⟨n - 1, by omega⟩ : Fin n)) := by
    intro j
    apply propext
    constructor
    · exact fun h => Fin.ext h
    · exact fun h => by rw [h]
  simp only [Matrix.map_apply, apply_ite Polynomial.C, map_one, map_zero,
    mul_ite, mul_one, mul_zero, hcond]
  rw [Finset.sum_ite_eq']
  simp only [Finset.mem_univ, if_true]
  rw [Matrix.mul_apply]
  refine Finset.sum_congr rfl fun i _ => ?_
  rw [Matrix.map_apply, charm_compA_adjugate n hn a i]

theorem ssToTfPoly_zero (s : StateSpaceModel 0) : ssToTfPoly s = (Polynomial.C s.D, 1) := by
  rw [ssToTfPoly_def]
  have hdet : (Matrix.charmatrix s.A).det = 1 := Matrix.det_isEmpty
  rw [hdet, mul_one]
  congr 1
  rw [Matrix.mul_apply]
  simp

theorem ssToTfPoly_companion (num rest : List ℚ) (hn : 0 < rest.length) :
    ssToTfPoly (toStateSpace ⟨num, 1 :: rest⟩).2
      = (∑ i : Fin rest.length,
            Polynomial.C
                (((List.replicate (rest.length + 1 - num.length) 0 ++ num).reverse).getD
                    (i : ℕ) 0
                  - ((List.replicate (rest.length + 1 - num.length) 0
                        ++ num).reverse).getD rest.length 0
                    * rest.reverse.getD (i : ℕ) 0)
              * Polynomial.X ^ (i : ℕ)
          + Polynomial.C
              (((List.replicate (rest.length + 1 - num.length) 0
                  ++ num).reverse).getD rest.length 0)
            * denP rest.length (fun j => rest.reverse.getD (j : ℕ) 0),
        denP rest.length (fun j => rest.reverse.getD (j : ℕ) 0)) := by
  have hs : (toStateSpace ⟨num, 1 :: rest⟩).2
      = ({ A := compA rest.length (fun j => rest.reverse.getD (j : ℕ) 0),
           B := fun i _ => if (i : ℕ) = rest.length - 1 then 1 else 0,
           C := fun _ j =>
              ((List.replicate (rest.length + 1 - num.length) 0 ++ num).reverse).getD
                  (j : ℕ) 0
                - ((List.replicate (rest.length + 1 - num.length) 0
                      ++ num).reverse).getD rest.length 0
                  * rest.reverse.getD (j : ℕ) 0,
           D := ((List.replicate (rest.length + 1 - num.length) 0
              ++ num).reverse).getD rest.length 0 }
          : StateSpaceModel rest.length) := by
    have hhead : ((1 : ℚ) :: rest).headI = 1 := rfl
    simp only [toStateSpace, compA, hhead, div_one, List.tail_cons, List.length_cons,
      Nat.add_sub_cancel, List.map_id']
    rfl
  have h2 := ssToTfPoly_compA rest.length hn
    (fun j => rest.reverse.getD (j : ℕ) 0)
    (fun j =>
      ((List.replicate (rest.length + 1 - num.length) 0 ++ num).reverse).getD (j : ℕ) 0
        - ((List.replicate (rest.length + 1 - num.length) 0
              ++ num).reverse).getD rest.length 0
          * rest.reverse.getD (j : ℕ) 0)
    (((List.replicate (rest.length + 1 - num.length) 0
        ++ num).reverse).getD rest.length 0)
  rw [hs, h2]

/-- C5 counterexample: the improper monic model (s^2 + s + 1)/(s + 1) — num =
[1, 1, 1], den = [1, 1], denominator leading coefficient 1 — is not reproduced
by the round trip: the order-1 controllable-canonical realization truncates
the numerator, and the conversion back returns s + 1 in place of
s^2 + s + 1. -/
theorem tf_roundtrip_improper :
    ssToTfPoly (toStateSpace ⟨[(1 : ℚ), 1, 1], [1, 1]⟩).2
      ≠ (listToPoly [(1 : ℚ), 1, 1], listToPoly [1, 1]) := by
  intro hcon
  rw [ssToTfPoly_companion [(1 : ℚ), 1, 1] [1] (by norm_num)] at hcon
  have h1 := congrArg Prod.fst hcon
  dsimp only at h1
  have h2 := congrArg (fun p : Polynomial ℚ => p.coeff 2) h1
  norm_num [denP, listToPoly_cons, listToPoly_nil, Fin.sum_univ_one,
    List.replicate_zero, List.reverse_cons, List.reverse_nil,
    List.getD_cons_zero, List.getD_cons_succ,
    Polynomial.coeff_add, Polynomial.coeff_C_mul, Polynomial.coeff_X_pow,
    Polynomial.coeff_C] at h2

/-- C5 (amended: restricted to proper models, whose numerator list is no
longer than the denominator list — for improper models the realization
truncates the numerator and the claim fails, see the counterexample): for
every transfer-function model whose denominator has leading coefficient 1,
toStateSpace followed by the resolvent-formula conversion back reproduces the
numerator and denominator exactly, as polynomials — every coefficient is
recovered, and in exact rational arithmetic the tolerance is 0.  Order-zero
denominators are included. -/
theorem tf_roundtrip (num den : List ℚ) (hmonic : den.headI = 1)
    (hprop : num.length ≤ den.length) :
    ssToTfPoly (toStateSpace ⟨num, den⟩).2 = (listToPoly num, listToPoly den) := by
  have hden : den ≠ [] := by
    intro hnil
    rw [hnil] at hmonic
    have h0 : ([] : List ℚ).headI = 0 := rfl
    rw [h0] at hmonic
    norm_num at hmonic
  obtain ⟨c, rest, rfl⟩ := List.exists_cons_of_ne_nil hden
  have hc : c = 1 := hmonic
  subst hc
  by_cases hrest : rest = []
  · subst hrest
    rw [ssToTfPoly_zero, Prod.mk.injEq]
    cases num with
    | nil =>
        constructor
        · have hD : (toStateSpace ⟨([] : List ℚ), [1]⟩).2.D = 0 := by
            simp [toStateSpace]
          rw [hD, listToPoly_nil, map_zero]
        · rw [listToPoly_cons, listToPoly_nil]
          simp
    | cons b bs =>
        have hbs : bs = [] := by
          simp only [List.length_cons, List.length_nil] at hprop
          exact List.eq_nil_of_length_eq_zero (by omega)
        subst hbs
        constructor
        · have hD : (toStateSpace ⟨[b], [(1 : ℚ)]⟩).2.D = b := by
            simp [toStateSpace]
          rw [hD, listToPoly_cons, listToPoly_nil]
          simp
        · rw [listToPoly_cons, listToPoly_nil]
          simp
  · have hn : 0 < rest.length := List.length_pos.mpr hrest
    have hp2 : num.length ≤ rest.length + 1 := by
      simpa only [List.length_cons] using hprop
    have hlenP : (List.replicate (rest.length + 1 - num.length) 0 ++ num).length
        = rest.length + 1 := by
      simp only [List.length_append, List.length_replicate]
      omega
    rw [ssToTfPoly_companion num rest hn, Prod.mk.injEq]
    refine ⟨?_, denP_eq_listToPoly rest⟩
    have hsum : ∑ i : Fin rest.length,
        Polynomial.C
            (((List.replicate (rest.length + 1 - num.length) 0 ++ num).reverse).getD
                (i : ℕ) 0
              - ((List.replicate (rest.length + 1 - num.length) 0
                    ++ num).reverse).getD rest.length 0
                * rest.reverse.getD (i : ℕ) 0)
          * Polynomial.X ^ (i : ℕ)
        = (∑ i : Fin rest.length,
            Polynomial.C
                (((List.replicate (rest.length + 1 - num.length) 0 ++ num).reverse).getD
                  (i : ℕ) 0)
              * Polynomial.X ^ (i : ℕ))
          - Polynomial.C
              (((List.replicate (rest.length + 1 - num.length) 0
                  ++ num).reverse).getD rest.length 0)
            * ∑ i : Fin rest.length,
                Polynomial.C (rest.reverse.getD (i : ℕ) 0) * Polynomial.X ^ (i : ℕ) := by
      rw [Finset.mul_sum, ← Finset.sum_sub_distrib]
      refine Finset.sum_congr rfl fun i _ => ?_
      rw [map_sub, map_mul, sub_mul]
      ring
    calc (∑ i : Fin rest.length,
            Polynomial.C
                (((List.replicate (rest.length + 1 - num.length) 0 ++ num).reverse).getD
                    (i : ℕ) 0
                  - ((List.replicate (rest.length + 1 - num.length) 0
                        ++ num).reverse).getD rest.length 0
                    * rest.reverse.getD (i : ℕ) 0)
              * Polynomial.X ^ (i : ℕ))
          + Polynomial.C
              (((List.replicate (rest.length + 1 - num.length) 0
                  ++ num).reverse).getD rest.length 0)
            * denP rest.length (fun j => rest.reverse.getD (j : ℕ) 0)
        = (∑ i : Fin rest.length,
            Polynomial.C
                (((List.replicate (rest.length + 1 - num.length) 0 ++ num).reverse).getD
                  (i : ℕ) 0)
              * Polynomial.X ^ (i : ℕ))
          + Polynomial.C
              (((List.replicate (rest.length + 1 - num.length) 0
                  ++ num).reverse).getD rest.length 0)
            * Polynomial.X ^ rest.length := by
          rw [hsum, denP]
          ring
      _ = listToPoly num := by
          rw [← listToPoly_replicate_append (rest.length + 1 - num.length) num,
            listToPoly_eq_sum, hlenP, Finset.sum_range_succ,
            ← Fin.sum_univ_eq_sum_range]

theorem tf_roundtrip_witness :
    (([(1 : ℚ), 1] : List ℚ).headI = 1 ∧
        ([(1 : ℚ)] : List ℚ).length ≤ ([(1 : ℚ), 1] : List ℚ).length) ∧
      ssToTfPoly (toStateSpace ⟨[(1 : ℚ)], [1, 1]⟩).2
        = (listToPoly [(1 : ℚ)], listToPoly [1, 1]) :=
  ⟨⟨by decide, by decide⟩, tf_roundtrip [(1 : ℚ)] [1, 1] (by decide) (by decide)⟩
